import Mathlib

/-!
Verification development for the master actor's cluster state machine
(`src/master/master.hpp`): the registry operations, the `Slaves` index,
the `Framework` / `Slave` resource accounting, and the connection
handling, shallowly embedded in Lean 4, with the spec's claims settled
as theorems.

Identifiers such as `SlaveID`, `FrameworkID`, `TaskID`, `OfferID`,
`ExecutorID`, hostnames and timestamps are abstracted to `Nat`;
protobuf repeated fields become `List`, `hashset` becomes `Finset`,
and unordered `hashmap`s over resources become total functions that
are zero off their key set (a hashmap read of an absent key
default-constructs an empty `Resources`, so this abstraction is
exact for the operations modelled here).
-/

namespace Mesos

/-- Modelled from the spec: `SlaveInfo` (protobuf, outside src/) carries the
agent identity; only the required `id` field is relevant to the registry
operations, which copy the whole message. -/
structure SlaveInfo where
  id : Nat
deriving DecidableEq, Repr

/-- Modelled from the spec: an entry of the registry's admitted-slaves list
(`Registry::Slave`, protobuf outside src/), holding the agent's info. -/
structure RegistrySlave where
  info : SlaveInfo
deriving DecidableEq, Repr

/-- Modelled from the spec: an entry of the registry's unreachable list
(`Registry::UnreachableSlave`, protobuf outside src/): the agent id and the
time at which it was marked unreachable. -/
structure UnreachableSlave where
  id : Nat
  timestamp : Nat
deriving DecidableEq, Repr

/-- Modelled from the spec: the persisted registry snapshot — the list of
admitted slaves and the ordered list of unreachable slave records. -/
structure Registry where
  slaves : List RegistrySlave
  unreachable : List UnreachableSlave
deriving DecidableEq, Repr

/-- Result of a registry operation's `perform`: the `Try<bool>` outcome
together with the (possibly mutated) registry and admitted-id set, which
the C++ code mutates in place through pointers. -/
structure RegOutcome where
  result : Except String Bool
  registry : Registry
  slaveIDs : Finset Nat

/-- The outcome left both the registry snapshot and the admitted-id set
exactly as they were. -/
def RegOutcome.unchangedFrom (o : RegOutcome) (reg : Registry)
    (ids : Finset Nat) : Prop :=
  o.registry = reg ∧ o.slaveIDs = ids

/-- `AdmitSlave` registry operation (master.hpp:1921). -/
structure AdmitSlave where
  info : SlaveInfo

/-- `AdmitSlave::perform` (master.hpp:1930): reject an already admitted id,
otherwise append the slave to the admitted list and record its id. -/
def AdmitSlave.perform (op : AdmitSlave) (registry : Registry)
    (slaveIDs : Finset Nat) : RegOutcome :=
  if op.info.id ∈ slaveIDs then
    ⟨.error "Agent already admitted", registry, slaveIDs⟩
  else
    ⟨.ok true,
     { registry with slaves := registry.slaves ++ [⟨op.info⟩] },
     insert op.info.id slaveIDs⟩

/-- Scan of the admitted list for the first entry with the given id,
deleting it (`DeleteSubrange(i, 1)` at the match index); `none` when the
id does not occur.  Shared by `MarkSlaveUnreachable::perform` and
`RemoveSlave::perform`, whose loops mutate nothing before the match. -/
def removeFirstSlave (id : Nat) : List RegistrySlave → Option (List RegistrySlave)
  | [] => none
  | s :: rest =>
    if s.info.id = id then some rest
    else (removeFirstSlave id rest).map (s :: ·)

/-- `MarkSlaveUnreachable` registry operation (master.hpp:1953). -/
structure MarkSlaveUnreachable where
  info : SlaveInfo
  unreachableTime : Nat

/-- `MarkSlaveUnreachable::perform` (master.hpp:1962): require the id to be
admitted, delete its entry from the admitted list, and append an
unreachable record carrying the timestamp. -/
def MarkSlaveUnreachable.perform (op : MarkSlaveUnreachable)
    (registry : Registry) (slaveIDs : Finset Nat) : RegOutcome :=
  if op.info.id ∉ slaveIDs then
    ⟨.error "Agent not yet admitted", registry, slaveIDs⟩
  else
    match removeFirstSlave op.info.id registry.slaves with
    | some slaves' =>
        ⟨.ok true,
         { slaves := slaves',
           unreachable :=
             registry.unreachable ++ [⟨op.info.id, op.unreachableTime⟩] },
         slaveIDs.erase op.info.id⟩
    | none => ⟨.error "Failed to find agent", registry, slaveIDs⟩

/-- Deletion of the first unreachable entry with the given id
(`DeleteSubrange(i, 1)` followed by `break`); the list is returned
unchanged when the id does not occur. -/
def eraseFirstUnreachable (id : Nat) : List UnreachableSlave → List UnreachableSlave
  | [] => []
  | s :: rest => if s.id = id then rest else s :: eraseFirstUnreachable id rest

/-- `MarkSlaveReachable` registry operation (master.hpp:2004). -/
structure MarkSlaveReachable where
  info : SlaveInfo

/-- `MarkSlaveReachable::perform` (master.hpp:2012): a no-op returning
`false` when the id is already admitted; otherwise remove the id's entry
from the unreachable list if present (absence only logs a warning) and
append the slave to the admitted list. -/
def MarkSlaveReachable.perform (op : MarkSlaveReachable)
    (registry : Registry) (slaveIDs : Finset Nat) : RegOutcome :=
  if op.info.id ∈ slaveIDs then
    ⟨.ok false, registry, slaveIDs⟩
  else
    ⟨.ok true,
     { slaves := registry.slaves ++ [⟨op.info⟩],
       unreachable := eraseFirstUnreachable op.info.id registry.unreachable },
     insert op.info.id slaveIDs⟩

/-- Protobuf `RepeatedPtrField::DeleteSubrange(start, num)`: delete `num`
elements starting at index `start` (clamped to the list's end). -/
def deleteSubrange (l : List UnreachableSlave) (start num : Nat) :
    List UnreachableSlave :=
  l.take start ++ l.drop (start + num)

/-- The scan loop of `PruneUnreachable::perform` (master.hpp:2074-2090): at a
match the code calls `DeleteSubrange(i, i+1)` — deleting `i + 1` elements
starting at index `i`, not one element — sets the mutation flag and
re-examines index `i`; otherwise it advances. -/
def pruneLoop (toRemove : Finset Nat) (l : List UnreachableSlave)
    (i : Nat) (mutate : Bool) : Bool × List UnreachableSlave :=
  if h : i < l.length then
    if (l.get ⟨i, h⟩).id ∈ toRemove then
      pruneLoop toRemove (deleteSubrange l i (i + 1)) i true
    else
      pruneLoop toRemove l (i + 1) mutate
  else
    (mutate, l)
termination_by l.length - i
decreasing_by
  · simp only [deleteSubrange, List.length_append, List.length_take,
      List.length_drop]
    omega
  · omega

/-- `PruneUnreachable` registry operation (master.hpp:2058). -/
structure PruneUnreachable where
  toRemove : Finset Nat

/-- `PruneUnreachable::perform` (master.hpp:2065): run the scan loop over the
unreachable list; the admitted list and id set are never touched, and the
result is the mutation flag (never an error). -/
def PruneUnreachable.perform (op : PruneUnreachable) (registry : Registry)
    (slaveIDs : Finset Nat) : RegOutcome :=
  let r := pruneLoop op.toRemove registry.unreachable 0 false
  ⟨.ok r.1, { registry with unreachable := r.2 }, slaveIDs⟩

/-- `RemoveSlave` registry operation (master.hpp:2101). -/
structure RemoveSlave where
  info : SlaveInfo

/-- `RemoveSlave::perform` (master.hpp:2110): delete the id's entry from the
admitted list and erase the id; error when the id's entry is absent. -/
def RemoveSlave.perform (op : RemoveSlave) (registry : Registry)
    (slaveIDs : Finset Nat) : RegOutcome :=
  match removeFirstSlave op.info.id registry.slaves with
  | some slaves' =>
      ⟨.ok true, { registry with slaves := slaves' }, slaveIDs.erase op.info.id⟩
  | none => ⟨.error "Agent not yet admitted", registry, slaveIDs⟩

/-- Concrete registry for exercising `PruneUnreachable`: three unreachable
records with ids 1, 2, 3 in registry order. -/
def pruneExampleRegistry : Registry :=
  ⟨[], [⟨1, 11⟩, ⟨2, 12⟩, ⟨3, 13⟩]⟩

/-- The `Slaves` index of the master (master.hpp:1612), restricted to the
field the recovery-gating question reads: the set of agents recovered from
the registry that have neither re-registered nor had their grace timer
fire. -/
structure Slaves where
  recovered : Finset Nat

/-- `Slaves::transitioning` (master.hpp:1728): for a concrete id, membership
in `recovered`; for `None`, whether `recovered` is non-empty. -/
def Slaves.transitioning (sl : Slaves) (slaveId : Option Nat) : Bool :=
  match slaveId with
  | some id => decide (id ∈ sl.recovered)
  | none => !decide (sl.recovered = ∅)

/-- Modelled from the spec: the `Resources` collection (defined in the repo
outside src/).  Scalar resources add and subtract numerically; set/range
resources (modelled by one `Finset` of port numbers) keep a single
representation — addition is union ("added N times but only represented
once") and subtraction removes whatever overlaps and "simply ignores the
subtraction since there's nothing to remove" (master.hpp:2563-2571). -/
structure Resources where
  cpus : Nat
  ports : Finset Nat
deriving DecidableEq

/-- Addition of `Resources`: numeric on scalars, union on set/range parts. -/
def Resources.add (a b : Resources) : Resources :=
  ⟨a.cpus + b.cpus, a.ports ∪ b.ports⟩

/-- Subtraction of `Resources`: truncated numeric subtraction on scalars,
set difference on set/range parts. -/
def Resources.sub (a b : Resources) : Resources :=
  ⟨a.cpus - b.cpus, a.ports \ b.ports⟩

instance : Zero Resources := ⟨⟨0, ∅⟩⟩

instance : Add Resources := ⟨Resources.add⟩

instance : Sub Resources := ⟨Resources.sub⟩

instance : AddCommMonoid Resources where
  add := (· + ·)
  zero := 0
  nsmul := nsmulRec
  nsmul_zero _ := rfl
  nsmul_succ _ _ := rfl
  add_assoc a b c := by
    show Resources.add (Resources.add a b) c = Resources.add a (Resources.add b c)
    simp [Resources.add, Nat.add_assoc, Finset.union_assoc]
  zero_add a := by
    show Resources.add ⟨0, ∅⟩ a = a
    simp [Resources.add]
  add_zero a := by
    show Resources.add a ⟨0, ∅⟩ = a
    simp [Resources.add]
  add_comm a b := by
    show Resources.add a b = Resources.add b a
    simp [Resources.add, Nat.add_comm, Finset.union_comm]

instance decidableExistsMem {α : Type} [DecidableEq α] (m : Multiset α)
    (p : α → Prop) [DecidablePred p] : Decidable (∃ x ∈ m, p x) :=
  Multiset.decidableExistsMultiset

/-- A resource bundle with no set/range component: only scalar values. -/
def Resources.scalarOnly (r : Resources) : Prop := r.ports = ∅

instance (r : Resources) : Decidable r.scalarOnly := by
  unfold Resources.scalarOnly
  infer_instance

/-- Task states, as in the `TaskState` protobuf enum (outside src/). -/
inductive TaskState
  | staging | starting | running | killing
  | finished | failed | killed | lost | unreachable | dropped | error
deriving DecidableEq

/-- Modelled from the spec: `protobuf::isTerminalState` (outside src/);
terminal states are "finished | failed | killed | lost | unreachable |
dropped | error" and are final. -/
def isTerminalState : TaskState → Bool
  | .finished | .failed | .killed | .lost | .unreachable | .dropped | .error =>
      true
  | _ => false

/-- A task (the `Task` protobuf, outside src/), restricted to the fields the
master's accounting reads: identity, owning framework and agent, state and
resources. -/
structure Task where
  taskId : Nat
  frameworkId : Nat
  slaveId : Nat
  state : TaskState
  resources : Resources
deriving DecidableEq

/-- An executor (the `ExecutorInfo` protobuf, outside src/), with the ids of
the framework and agent it is associated with. -/
structure ExecutorInfo where
  executorId : Nat
  frameworkId : Nat
  slaveId : Nat
  resources : Resources
deriving DecidableEq

/-- An offer (the `Offer` protobuf, outside src/): a grant of agent
resources to a framework. -/
structure Offer where
  offerId : Nat
  frameworkId : Nat
  slaveId : Nat
  resources : Resources
deriving DecidableEq

/-- Assignment `m[k] = v` on a hashmap of resources represented as a total
function (absent keys read as the default-constructed empty `Resources`). -/
def hashmapUpdate (f : Nat → Resources) (k : Nat) (v : Resources) :
    Nat → Resources :=
  fun a => if a = k then v else f a

/-- `boost::circular_buffer::push_back` on a capacity-bounded ring kept as
an oldest-first list: a full ring drops its oldest element, and a
zero-capacity ring stores nothing. -/
def circularPush (cap : Nat) (l : List Task) (t : Task) : List Task :=
  if cap = 0 then l
  else if l.length < cap then l ++ [t]
  else l.tail ++ [t]

/-- The resource-accounting state of `struct Framework` (master.hpp:2180):
live tasks, the bounded completed-task ring, offers, executors, and the
total and per-agent used/offered aggregates.  The unordered task map,
offer set and executor map are multisets of entries (key uniqueness is
enforced by the `add*` operations); the per-agent hashmaps are total
functions, zero off their key set, which also makes the
erase-entry-when-empty steps of the C++ the identity. -/
structure Framework where
  tasks : Multiset Task
  completedTasks : List Task
  completedTasksCapacity : Nat
  offers : Multiset Offer
  executors : Multiset ExecutorInfo
  totalUsedResources : Resources
  usedResources : Nat → Resources
  totalOfferedResources : Resources
  offeredResources : Nat → Resources

/-- A `Framework` as either constructor builds it (master.hpp:2182,2196):
empty maps and empty resource aggregates, with the completed-task ring
bounded by the `max_completed_tasks_per_framework` flag. -/
def Framework.init (cap : Nat) : Framework :=
  ⟨0, [], cap, 0, 0, 0, fun _ => 0, 0, fun _ => 0⟩

/-- `Framework::addTask` (master.hpp:2226): reject a duplicate task id
(the `CHECK`), insert the task, and add its resources to the total and
per-agent used aggregates only when its state is non-terminal. -/
def Framework.addTask (F : Framework) (t : Task) : Option Framework :=
  if ∃ u ∈ F.tasks, u.taskId = t.taskId then none
  else some { F with
    tasks := t ::ₘ F.tasks,
    totalUsedResources :=
      if isTerminalState t.state then F.totalUsedResources
      else F.totalUsedResources + t.resources,
    usedResources :=
      if isTerminalState t.state then F.usedResources
      else hashmapUpdate F.usedResources t.slaveId
        (F.usedResources t.slaveId + t.resources) }

/-- Modelled from the spec for the caller's half: `Master::updateTask`
(master.cpp, outside src/) transitions a stored non-terminal task into a
terminal state and on exactly that transition calls
`Framework::taskTerminated` (master.hpp:2244), which checks the state is
terminal and subtracts the task's resources from the total and per-agent
used aggregates.  The combined transition is modelled: the stored task
`t` (the C++ passes the `Task*` held in the map) changes state to the
terminal `newState` and its resources are subtracted once. -/
def Framework.taskTerminated (F : Framework) (t : Task) (newState : TaskState) :
    Option Framework :=
  if t ∈ F.tasks ∧ isTerminalState t.state = false ∧
      isTerminalState newState = true then
    some { F with
      tasks := { t with state := newState } ::ₘ F.tasks.erase t,
      totalUsedResources := F.totalUsedResources - t.resources,
      usedResources := hashmapUpdate F.usedResources t.slaveId
        (F.usedResources t.slaveId - t.resources) }
  else none

/-- `Framework::removeTask` (master.hpp:2284): check the task is present,
subtract its resources from the used aggregates only when it is
non-terminal, archive a copy into the bounded completed-task ring
(`addCompletedTask`, master.hpp:2278), and erase it from the live map.
The C++ passes the stored `Task*`; the model passes that stored entry. -/
def Framework.removeTask (F : Framework) (t : Task) : Option Framework :=
  if t ∈ F.tasks then
    some { F with
      totalUsedResources :=
        if isTerminalState t.state then F.totalUsedResources
        else F.totalUsedResources - t.resources,
      usedResources :=
        if isTerminalState t.state then F.usedResources
        else hashmapUpdate F.usedResources t.slaveId
          (F.usedResources t.slaveId - t.resources),
      completedTasks := circularPush F.completedTasksCapacity F.completedTasks t,
      tasks := F.tasks.erase t }
  else none

/-- `Framework::addOffer` (master.hpp:2303): reject a duplicate offer,
insert it, and add its resources to the total and per-agent offered
aggregates. -/
def Framework.addOffer (F : Framework) (o : Offer) : Option Framework :=
  if o ∈ F.offers then none
  else some { F with
    offers := o ::ₘ F.offers,
    totalOfferedResources := F.totalOfferedResources + o.resources,
    offeredResources := hashmapUpdate F.offeredResources o.slaveId
      (F.offeredResources o.slaveId + o.resources) }

/-- `Framework::removeOffer` (master.hpp:2311): check the offer is present,
subtract its resources from the offered aggregates, and erase it. -/
def Framework.removeOffer (F : Framework) (o : Offer) : Option Framework :=
  if o ∈ F.offers then
    some { F with
      totalOfferedResources := F.totalOfferedResources - o.resources,
      offeredResources := hashmapUpdate F.offeredResources o.slaveId
        (F.offeredResources o.slaveId - o.resources),
      offers := F.offers.erase o }
  else none

/-- `Framework::addExecutor` (master.hpp:2347): reject a duplicate
(agent, executor-id) pair (`hasExecutor`), insert the executor, and add
its resources to the total and per-agent used aggregates. -/
def Framework.addExecutor (F : Framework) (e : ExecutorInfo) : Option Framework :=
  if ∃ x ∈ F.executors, x.slaveId = e.slaveId ∧ x.executorId = e.executorId then
    none
  else some { F with
    executors := e ::ₘ F.executors,
    totalUsedResources := F.totalUsedResources + e.resources,
    usedResources := hashmapUpdate F.usedResources e.slaveId
      (F.usedResources e.slaveId + e.resources) }

/-- `Framework::removeExecutor` (master.hpp:2359): check the executor is
present, subtract the stored entry's resources from the used aggregates,
and erase it.  The C++ looks the entry up by (agent, executor-id); the
model passes that stored entry. -/
def Framework.removeExecutor (F : Framework) (e : ExecutorInfo) :
    Option Framework :=
  if e ∈ F.executors then
    some { F with
      totalUsedResources := F.totalUsedResources - e.resources,
      usedResources := hashmapUpdate F.usedResources e.slaveId
        (F.usedResources e.slaveId - e.resources),
      executors := F.executors.erase e }
  else none

/-- One resource-touching operation on a `Framework`, as enumerated by the
spec's accounting invariant. -/
inductive FrameworkOp
  | addTask (t : Task)
  | taskTerminated (t : Task) (newState : TaskState)
  | removeTask (t : Task)
  | addOffer (o : Offer)
  | removeOffer (o : Offer)
  | addExecutor (e : ExecutorInfo)
  | removeExecutor (e : ExecutorInfo)

/-- Dispatch of a `FrameworkOp` to the corresponding member function. -/
def FrameworkOp.apply : FrameworkOp → Framework → Option Framework
  | .addTask t, F => F.addTask t
  | .taskTerminated t s, F => F.taskTerminated t s
  | .removeTask t, F => F.removeTask t
  | .addOffer o, F => F.addOffer o
  | .removeOffer o, F => F.removeOffer o
  | .addExecutor e, F => F.addExecutor e
  | .removeExecutor e, F => F.removeExecutor e

/-- Framework states reachable from construction by the resource-touching
operations. -/
inductive ReachableFramework : Framework → Prop
  | init (cap : Nat) : ReachableFramework (Framework.init cap)
  | step {F F' : Framework} (op : FrameworkOp) :
      ReachableFramework F → op.apply F = some F' → ReachableFramework F'

/-- The operation introduces no set/range resources (removals introduce
nothing, so they are unconstrained). -/
def FrameworkOp.scalarOnly : FrameworkOp → Prop
  | .addTask t => t.resources.scalarOnly
  | .taskTerminated _ _ => True
  | .removeTask _ => True
  | .addOffer o => o.resources.scalarOnly
  | .removeOffer _ => True
  | .addExecutor e => e.resources.scalarOnly
  | .removeExecutor _ => True

/-- Framework states reachable from construction using only scalar
resources. -/
inductive ReachableScalarFramework : Framework → Prop
  | init (cap : Nat) : ReachableScalarFramework (Framework.init cap)
  | step {F F' : Framework} (op : FrameworkOp) :
      ReachableScalarFramework F → op.scalarOnly → op.apply F = some F' →
      ReachableScalarFramework F'

/-- The (agent, resources) contributions that the used aggregates are meant
to track: one per non-terminal task and one per executor. -/
def Framework.usedPairs (F : Framework) : Multiset (Nat × Resources) :=
  (F.tasks.filter (fun t => isTerminalState t.state = false)).map
    (fun t => (t.slaveId, t.resources))
  + F.executors.map (fun e => (e.slaveId, e.resources))

/-- The (agent, resources) contributions of the held offers. -/
def Framework.offeredPairs (F : Framework) : Multiset (Nat × Resources) :=
  F.offers.map (fun o => (o.slaveId, o.resources))

/-- Sum of the contributions attributed to one agent. -/
def pairsOn (m : Multiset (Nat × Resources)) (a : Nat) : Resources :=
  ((m.filter (fun p => p.1 = a)).map Prod.snd).sum

/-- Sum of all contributions. -/
def pairsTotal (m : Multiset (Nat × Resources)) : Resources :=
  (m.map Prod.snd).sum

/-- The bookkeeping invariant of a `Framework`: every per-agent aggregate
and both totals equal the sums of the contributions they track. -/
def Framework.Accounting (F : Framework) : Prop :=
  (∀ a, F.usedResources a = pairsOn F.usedPairs a) ∧
  (∀ a, F.offeredResources a = pairsOn F.offeredPairs a) ∧
  F.totalUsedResources = pairsTotal F.usedPairs ∧
  F.totalOfferedResources = pairsTotal F.offeredPairs

/-- Every resource bundle held by the framework is scalar-only. -/
def Framework.ScalarState (F : Framework) : Prop :=
  (∀ t ∈ F.tasks, t.resources.scalarOnly) ∧
  (∀ o ∈ F.offers, o.resources.scalarOnly) ∧
  (∀ e ∈ F.executors, e.resources.scalarOnly)

/-- The claimed equalities: the totals equal the per-agent aggregates
summed over every finite set of agents outside of which the per-agent
maps are empty (i.e. summed over all agents of the hashmaps). -/
def Framework.TotalsMatch (F : Framework) : Prop :=
  ∀ S : Finset Nat,
    (∀ a, a ∉ S → F.usedResources a = 0 ∧ F.offeredResources a = 0) →
    F.totalUsedResources = ∑ a in S, F.usedResources a ∧
    F.totalOfferedResources = ∑ a in S, F.offeredResources a

/-- The resource-accounting state of `struct Slave` (master.hpp:111)
relevant to task removal: tasks, the kill-reconciliation pairs
(framework id, task id), executors, and the per-framework used
aggregate. -/
structure Slave where
  tasks : Multiset Task
  killedTasks : Multiset (Nat × Nat)
  executors : Multiset ExecutorInfo
  usedResources : Nat → Resources
  offeredResources : Resources

/-- `Slave::removeTask` (master.hpp:187): check the task is present,
subtract its resources from the owning framework's used aggregate only
when it is non-terminal, erase it from the task map and drop its
kill-reconciliation record.  The conditional `usedResources.erase` in the
C++ is dead there (the map still contains the framework's entry for this
very task when the condition is evaluated), and hashmap erasure of an
empty entry is the identity in the total-function representation. -/
def Slave.removeTask (S : Slave) (t : Task) : Option Slave :=
  if t ∈ S.tasks then
    some { S with
      usedResources :=
        if isTerminalState t.state then S.usedResources
        else hashmapUpdate S.usedResources t.frameworkId
          (S.usedResources t.frameworkId - t.resources),
      tasks := S.tasks.erase t,
      killedTasks := S.killedTasks.erase (t.frameworkId, t.taskId) }
  else none

/-- The streaming HTTP connection to a framework (master.hpp:367),
abstracted to its stream identity and the outcomes its `send`/`close`
calls would return (`Pipe::Writer::write`/`close` succeed unless the pipe
was already closed). -/
structure HttpConnection where
  streamId : Nat
  sendOk : Bool
  closeOk : Bool
deriving DecidableEq

/-- The connection-related state of `struct Framework` (master.hpp:2522):
the optional streaming connection, the optional scheduler-driver PID, the
`connected` flag, and the heartbeater owned by an HTTP connection. -/
structure FrameworkConnection where
  http : Option HttpConnection
  pid : Option Nat
  connected : Bool
  heartbeater : Option Nat
deriving DecidableEq

/-- The PID constructor of `Framework` (master.hpp:2182): sets `pid`,
leaves `http` unset. -/
def FrameworkConnection.ofPid (p : Nat) : FrameworkConnection :=
  ⟨none, some p, true, none⟩

/-- The HTTP constructor of `Framework` (master.hpp:2196): sets `http`,
leaves `pid` unset. -/
def FrameworkConnection.ofHttp (h : HttpConnection) : FrameworkConnection :=
  ⟨some h, none, true, none⟩

/-- `Framework::closeHttpConnection` (master.hpp:2483): `CHECK`s that an
HTTP connection and its heartbeater exist, closes the pipe (failure only
logs), clears `http` and tears the heartbeater down. -/
def FrameworkConnection.closeHttpConnection (c : FrameworkConnection) :
    Option FrameworkConnection :=
  match c.http, c.heartbeater with
  | some _, some _ => some { c with http := none, heartbeater := none }
  | _, _ => none

/-- `Framework::updateConnection(UPID)` (master.hpp:2448): close any HTTP
connection first, then install the new PID. -/
def FrameworkConnection.updateConnectionPid (c : FrameworkConnection)
    (newPid : Nat) : Option FrameworkConnection :=
  match c.http with
  | some _ => c.closeHttpConnection.map fun c' => { c' with pid := some newPid }
  | none => some { c with pid := some newPid }

/-- `Framework::updateConnection(HttpConnection)` (master.hpp:2460): wipe
the PID if one is set, otherwise close the old HTTP connection; `CHECK`
that `http` is now unset and install the new connection. -/
def FrameworkConnection.updateConnectionHttp (c : FrameworkConnection)
    (newHttp : HttpConnection) : Option FrameworkConnection :=
  match (if c.pid.isSome then some { c with pid := none }
         else c.closeHttpConnection) with
  | none => none
  | some c1 =>
      if c1.http.isSome then none
      else some { c1 with http := some newHttp }

/-- Exactly one of the streaming connection and the PID is set. -/
def FrameworkConnection.oneActiveConnection (c : FrameworkConnection) : Prop :=
  (c.http.isSome = true ∧ c.pid = none) ∨ (c.http = none ∧ c.pid.isSome = true)

/-- Where `Framework::send` delivered the message: over the HTTP pipe
(recording whether the write succeeded) or to the PID. -/
inductive SendTarget
  | http (writeOk : Bool)
  | pid (target : Nat)
deriving DecidableEq

/-- Observable effect of one `Framework::send` call: whether the
disconnected warning was logged, and where the message went. -/
structure SendOutcome where
  warnedDisconnected : Bool
  target : SendTarget
deriving DecidableEq

/-- `Framework::send` (master.hpp:2260): log a warning when `connected` is
false, then deliver over the HTTP pipe when `http` is set (a failed pipe
write only logs) and otherwise `CHECK` the PID and deliver to it.  The
message payload does not influence the control flow and is omitted. -/
def FrameworkConnection.send (c : FrameworkConnection) : Option SendOutcome :=
  match c.http with
  | some h => some ⟨!c.connected, .http h.sendOk⟩
  | none =>
    match c.pid with
    | some p => some ⟨!c.connected, .pid p⟩
    | none => none

end Mesos

namespace Mesos.Checkpoint

/-- Modelled from the spec: a single resource object (`Resource` protobuf,
outside src/) as far as checkpointing is concerned: identity, amount and
whether it is a persistent volume or a dynamic reservation. -/
structure Resource where
  name : Nat
  value : Nat
  persistentVolume : Bool
  dynamicReservation : Bool
deriving DecidableEq

/-- Modelled from the spec: the `needCheckpointing` predicate (defined in
the repo outside src/) selects the resources the agent must persist —
"persistent volumes, dynamic reservations, etc."
(master.hpp:338-341). -/
def needCheckpointing (r : Resource) : Bool :=
  r.persistentVolume || r.dynamicReservation

/-- The fields of `struct Slave` that `Slave::apply` touches: the current
total resources and the checkpointed subset, as collections of resource
objects. -/
structure Slave where
  totalResources : List Resource
  checkpointedResources : List Resource
deriving DecidableEq

/-- `Slave::apply` (master.hpp:275): apply the offer operation to
`totalResources` (`Resources::apply` is defined outside src/ and is
passed in as a function; a failed application trips the `CHECK`), then
recompute `checkpointedResources` as the `needCheckpointing` filter of
the new total. -/
def Slave.apply (s : Slave)
    (applyOperation : List Resource → Option (List Resource)) : Option Slave :=
  match applyOperation s.totalResources with
  | none => none
  | some r => some ⟨r, r.filter needCheckpointing⟩

/-- Concrete persistent-volume resource for exercising `Slave::apply`. -/
def exampleVolume : Resource := ⟨1, 5, true, false⟩

/-- Concrete plain resource for exercising `Slave::apply`. -/
def examplePlain : Resource := ⟨0, 4, false, false⟩

/-- Concrete agent state for exercising `Slave::apply`. -/
def exampleSlave : Slave := ⟨[examplePlain], []⟩

/-- Concrete applicable operation for exercising `Slave::apply`: a CREATE
that adds a persistent volume. -/
def exampleOperation : List Resource → Option (List Resource) :=
  fun l => some (exampleVolume :: l)

/-- Agent state after `Slave::apply` of `exampleOperation`. -/
def exampleSlaveAfter : Slave :=
  (exampleSlave.apply exampleOperation).getD exampleSlave

end Mesos.Checkpoint

namespace Mesos

/-- A purely set/range resource bundle: one port. -/
def portsResource : Resources := ⟨0, {80}⟩

/-- A purely scalar resource bundle of `n` cpus. -/
def cpuResource (n : Nat) : Resources := ⟨n, ∅⟩

/-- Concrete running task on agent 1 holding port 80. -/
def cxTask1 : Task := ⟨1, 1, 1, TaskState.running, portsResource⟩

/-- Concrete running task on agent 2 holding the same port 80. -/
def cxTask2 : Task := ⟨2, 1, 2, TaskState.running, portsResource⟩

/-- Freshly constructed framework (completed-task capacity 5). -/
def cxF0 : Framework := Framework.init 5

/-- `cxF0` after `addTask cxTask1`. -/
def cxF1 : Framework := (cxF0.addTask cxTask1).getD cxF0

/-- `cxF1` after `addTask cxTask2`. -/
def cxF2 : Framework := (cxF1.addTask cxTask2).getD cxF1

/-- `cxF2` after `cxTask1` transitions to `TASK_FINISHED`. -/
def cxF3 : Framework := (cxF2.taskTerminated cxTask1 TaskState.finished).getD cxF2

/-- Concrete already-terminal task with 2 cpus, as an agent hands the
master during re-registration. -/
def terminalTask : Task := ⟨7, 1, 3, TaskState.finished, cpuResource 2⟩

/-- Concrete running task with 2 cpus for exercising task removal. -/
def runningTask : Task := ⟨4, 2, 3, TaskState.running, cpuResource 2⟩

/-- Concrete framework holding `runningTask`. -/
def exampleFramework : Framework := (cxF0.addTask runningTask).getD cxF0

/-- Concrete agent state holding `runningTask`, with a pending kill record
for it and its resources accounted to framework 2. -/
def exampleAgent : Slave :=
  ⟨{runningTask}, {(2, 4)}, 0, hashmapUpdate (fun _ => 0) 2 (cpuResource 2), 0⟩

/-- Concrete disconnected framework connection with only a PID set. -/
def disconnectedPidConnection : FrameworkConnection := ⟨none, some 7, false, none⟩

/-- `exampleFramework` after `removeTask runningTask`. -/
def exampleFrameworkAfter : Framework :=
  (exampleFramework.removeTask runningTask).getD exampleFramework

/-- `exampleAgent` after `Slave::removeTask runningTask`. -/
def exampleAgentAfter : Slave :=
  (exampleAgent.removeTask runningTask).getD exampleAgent

/-- `cxF0` after `addTask terminalTask`. -/
def terminalAddFramework : Framework :=
  (cxF0.addTask terminalTask).getD cxF0

end Mesos

namespace Mesos

/-- C7: `Slaves::transitioning(Some(slaveId))` returns true exactly when
`slaveId` is in the `recovered` set, and `transitioning(None)` returns
true exactly when that set is non-empty. -/
theorem c7_transitioning_iff_recovered (sl : Slaves) (id : Nat) :
    (sl.transitioning (some id) = true ↔ id ∈ sl.recovered) ∧
    (sl.transitioning none = true ↔ sl.recovered ≠ ∅) := by
  constructor
  · simp [Slaves.transitioning]
  · simp [Slaves.transitioning]

/-- C10: after a successful `Slave::apply`, `checkpointedResources` is
exactly the `needCheckpointing` filter of the new `totalResources`, and in
particular every checkpointed resource is contained in the total. -/
theorem c10_checkpointed_filter_of_total (s : Checkpoint.Slave)
    (f : List Checkpoint.Resource → Option (List Checkpoint.Resource))
    (s' : Checkpoint.Slave) (h : s.apply f = some s') :
    s'.checkpointedResources =
      s'.totalResources.filter Checkpoint.needCheckpointing ∧
    ∀ x ∈ s'.checkpointedResources, x ∈ s'.totalResources := by
  unfold Checkpoint.Slave.apply at h
  cases hr : f s.totalResources with
  | none => rw [hr] at h; exact absurd h (by simp)
  | some r =>
    rw [hr] at h
    injection h with h
    subst h
    exact ⟨rfl, fun x hx => List.mem_of_mem_filter hx⟩

/-- Witness for C10: evaluating `Slave::apply` on a concrete CREATE
operation. -/
theorem c10_checkpointed_filter_of_total_witness :
    Checkpoint.exampleSlaveAfter.checkpointedResources =
      Checkpoint.exampleSlaveAfter.totalResources.filter
        Checkpoint.needCheckpointing ∧
    ∀ x ∈ Checkpoint.exampleSlaveAfter.checkpointedResources,
      x ∈ Checkpoint.exampleSlaveAfter.totalResources :=
  c10_checkpointed_filter_of_total Checkpoint.exampleSlave
    Checkpoint.exampleOperation Checkpoint.exampleSlaveAfter rfl

/-- C8: both `Framework` constructors set exactly one of `http` and `pid`,
and both `updateConnection` overloads leave exactly the new connection
set: a new PID clears any HTTP connection, and a new HTTP connection
clears the PID (or closes the old HTTP connection) first. -/
theorem c8_exactly_one_connection :
    (∀ p : Nat, (FrameworkConnection.ofPid p).oneActiveConnection) ∧
    (∀ h : HttpConnection, (FrameworkConnection.ofHttp h).oneActiveConnection) ∧
    (∀ (c c' : FrameworkConnection) (p : Nat),
        c.updateConnectionPid p = some c' →
        c'.pid = some p ∧ c'.http = none ∧ c'.oneActiveConnection) ∧
    (∀ (c c' : FrameworkConnection) (h : HttpConnection),
        c.updateConnectionHttp h = some c' →
        c'.http = some h ∧ c'.pid = none ∧ c'.oneActiveConnection) := by
  refine ⟨fun p => Or.inr ⟨rfl, rfl⟩, fun h => Or.inl ⟨rfl, rfl⟩, ?_, ?_⟩
  · intro c c' p hup
    unfold FrameworkConnection.updateConnectionPid
      FrameworkConnection.closeHttpConnection at hup
    obtain ⟨http, pid, conn, hb⟩ := c
    cases http with
    | none =>
      injection hup with hup
      subst hup
      exact ⟨rfl, rfl, Or.inr ⟨rfl, rfl⟩⟩
    | some h =>
      cases hb with
      | none => exact absurd hup (by simp)
      | some b =>
        injection hup with hup
        subst hup
        exact ⟨rfl, rfl, Or.inr ⟨rfl, rfl⟩⟩
  · intro c c' h hup
    unfold FrameworkConnection.updateConnectionHttp
      FrameworkConnection.closeHttpConnection at hup
    obtain ⟨http, pid, conn, hb⟩ := c
    cases pid with
    | some p =>
      cases http with
      | none =>
        simp only [Option.isSome_some, if_true] at hup
        injection hup with hup
        subst hup
        exact ⟨rfl, rfl, Or.inl ⟨rfl, rfl⟩⟩
      | some oldh => exact absurd hup (by simp)
    | none =>
      cases http with
      | none => exact absurd hup (by simp)
      | some oldh =>
        cases hb with
        | none => exact absurd hup (by simp)
        | some b =>
          simp only [Option.isSome_none, if_false] at hup
          injection hup with hup
          subst hup
          exact ⟨rfl, rfl, Or.inl ⟨rfl, rfl⟩⟩

/-- Witness for C8: updating a PID-connected framework to a new PID. -/
theorem c8_exactly_one_connection_witness :
    (FrameworkConnection.ofPid 3).updateConnectionPid 5 =
      some ⟨none, some 5, true, none⟩ ∧
    (⟨none, some 5, true, none⟩ : FrameworkConnection).oneActiveConnection :=
  ⟨rfl, (c8_exactly_one_connection.2.2.1 (FrameworkConnection.ofPid 3)
    ⟨none, some 5, true, none⟩ 5 rfl).2.2⟩

/-- Counterexample for C9: a disconnected framework with a PID connection
still has its message delivered to the PID — `send` logs the warning but
does not return, so it is not a no-op. -/
theorem c9_counterexample_send_delivers_when_disconnected :
    disconnectedPidConnection.connected = false ∧
    disconnectedPidConnection.send = some ⟨true, SendTarget.pid 7⟩ :=
  ⟨rfl, rfl⟩

/-- C9 (amended): `Framework::send` logs the disconnected warning exactly
when `connected` is false but still attempts delivery — over the HTTP
pipe when `http` is set (the pipe write may fail, which only logs),
otherwise to the PID; disconnecting a framework changes only the warning,
never the delivery. -/
theorem c9_send_warns_but_still_delivers :
    ∀ (c : FrameworkConnection) (o : SendOutcome), c.send = some o →
      (o.warnedDisconnected = true ↔ c.connected = false) ∧
      FrameworkConnection.send { c with connected := false } =
        some { o with warnedDisconnected := true } ∧
      (∀ h, c.http = some h → o.target = SendTarget.http h.sendOk) ∧
      (c.http = none → ∀ p, c.pid = some p → o.target = SendTarget.pid p) := by
  intro c o hsend
  unfold FrameworkConnection.send at hsend ⊢
  obtain ⟨http, pid, conn, hb⟩ := c
  cases http with
  | some h =>
    injection hsend with hsend
    subst hsend
    refine ⟨by cases conn <;> simp, by cases conn <;> simp, ?_, ?_⟩
    · intro h' hh'
      injection hh' with hh'
      subst hh'
      rfl
    · intro hcontra
      exact absurd hcontra (by simp)
  | none =>
    cases pid with
    | some p =>
      injection hsend with hsend
      subst hsend
      refine ⟨by cases conn <;> simp, by cases conn <;> simp, ?_, ?_⟩
      · intro h' hh'
        exact absurd hh' (by simp)
      · intro _ p' hp'
        injection hp' with hp'
        subst hp'
        rfl
    | none => exact absurd hsend (by simp)

/-- Witness for C9's amended theorem: sending on the concrete disconnected
PID connection. -/
theorem c9_send_warns_but_still_delivers_witness :
    FrameworkConnection.send
      { disconnectedPidConnection with connected := false } =
      some ⟨true, SendTarget.pid 7⟩ :=
  (c9_send_warns_but_still_delivers disconnectedPidConnection
    ⟨true, SendTarget.pid 7⟩ rfl).2.1

theorem removeFirstSlave_length (id : Nat) :
    ∀ (l l' : List RegistrySlave), removeFirstSlave id l = some l' →
      l'.length + 1 = l.length := by
  intro l
  induction l with
  | nil => intro l' h; exact absurd h (by simp [removeFirstSlave])
  | cons s rest ih =>
    intro l' h
    unfold removeFirstSlave at h
    by_cases hs : s.info.id = id
    · rw [if_pos hs] at h
      injection h with h
      subst h
      rfl
    · rw [if_neg hs] at h
      cases hrec : removeFirstSlave id rest with
      | none => rw [hrec] at h; exact absurd h (by simp)
      | some rest' =>
        rw [hrec] at h
        injection h with h
        subst h
        simp only [List.length_cons]
        rw [ih rest' hrec]

theorem pruneLoop_length_le (t : Finset Nat) (l : List UnreachableSlave)
    (i : Nat) (m : Bool) : ((pruneLoop t l i m).2).length ≤ l.length := by
  induction l, i, m using pruneLoop.induct t with
  | case1 l i m h hmem ih =>
    rw [pruneLoop]
    simp only [dif_pos h, if_pos hmem]
    refine le_trans ih ?_
    simp only [deleteSubrange, List.length_append, List.length_take,
      List.length_drop]
    omega
  | case2 l i m h hmem ih =>
    rw [pruneLoop]
    simp only [dif_pos h, if_neg hmem]
    exact ih
  | case3 l i m h =>
    rw [pruneLoop]
    simp only [dif_neg h]
    exact le_refl _

theorem pruneLoop_true_length_lt (t : Finset Nat) (l : List UnreachableSlave)
    (i : Nat) (m : Bool) :
    (pruneLoop t l i m).1 = true → m = false →
    ((pruneLoop t l i m).2).length < l.length := by
  induction l, i, m using pruneLoop.induct t with
  | case1 l i m h hmem ih =>
    intro htrue hm
    rw [pruneLoop]
    simp only [dif_pos h, if_pos hmem]
    calc ((pruneLoop t (deleteSubrange l i (i + 1)) i true).2).length
        ≤ (deleteSubrange l i (i + 1)).length :=
          pruneLoop_length_le t (deleteSubrange l i (i + 1)) i true
      _ < l.length := by
          simp only [deleteSubrange, List.length_append, List.length_take,
            List.length_drop]
          omega
  | case2 l i m h hmem ih =>
    intro htrue hm
    rw [pruneLoop] at htrue ⊢
    simp only [dif_pos h, if_neg hmem] at htrue ⊢
    exact ih htrue hm
  | case3 l i m h =>
    intro htrue hm
    rw [pruneLoop] at htrue
    simp only [dif_neg h] at htrue
    rw [hm] at htrue
    exact absurd htrue (by simp)

/-- C2: each of the five registry operations either returns an error with
the registry snapshot and admitted-id set left completely unchanged (no
error path performs a partial mutation), or returns success `true` having
actually mutated the state. -/
theorem c2_registry_ops_no_partial_mutation :
    (∀ (op : AdmitSlave) (reg : Registry) (ids : Finset Nat),
       (∀ s, (op.perform reg ids).result = .error s →
          (op.perform reg ids).unchangedFrom reg ids) ∧
       ((op.perform reg ids).result = .ok true →
          ¬ (op.perform reg ids).unchangedFrom reg ids)) ∧
    (∀ (op : MarkSlaveUnreachable) (reg : Registry) (ids : Finset Nat),
       (∀ s, (op.perform reg ids).result = .error s →
          (op.perform reg ids).unchangedFrom reg ids) ∧
       ((op.perform reg ids).result = .ok true →
          ¬ (op.perform reg ids).unchangedFrom reg ids)) ∧
    (∀ (op : MarkSlaveReachable) (reg : Registry) (ids : Finset Nat),
       (∀ s, (op.perform reg ids).result = .error s →
          (op.perform reg ids).unchangedFrom reg ids) ∧
       ((op.perform reg ids).result = .ok true →
          ¬ (op.perform reg ids).unchangedFrom reg ids)) ∧
    (∀ (op : PruneUnreachable) (reg : Registry) (ids : Finset Nat),
       (∀ s, (op.perform reg ids).result = .error s →
          (op.perform reg ids).unchangedFrom reg ids) ∧
       ((op.perform reg ids).result = .ok true →
          ¬ (op.perform reg ids).unchangedFrom reg ids)) ∧
    (∀ (op : RemoveSlave) (reg : Registry) (ids : Finset Nat),
       (∀ s, (op.perform reg ids).result = .error s →
          (op.perform reg ids).unchangedFrom reg ids) ∧
       ((op.perform reg ids).result = .ok true →
          ¬ (op.perform reg ids).unchangedFrom reg ids)) := by
  refine ⟨?_, ?_, ?_, ?_, ?_⟩
  · -- AdmitSlave
    intro op reg ids
    by_cases hmem : op.info.id ∈ ids
    · simp only [AdmitSlave.perform, if_pos hmem]
      exact ⟨fun s _ => ⟨rfl, rfl⟩, fun h => absurd h (by simp)⟩
    · simp only [AdmitSlave.perform, if_neg hmem]
      refine ⟨fun s hs => absurd hs (by simp), fun _ hch => ?_⟩
      have := congrArg (fun r => r.slaves.length) hch.1
      simp at this
  · -- MarkSlaveUnreachable
    intro op reg ids
    by_cases hmem : op.info.id ∈ ids
    · simp only [MarkSlaveUnreachable.perform, if_neg (not_not_intro hmem)]
      cases hrem : removeFirstSlave op.info.id reg.slaves with
      | none =>
        exact ⟨fun s _ => ⟨rfl, rfl⟩, fun h => absurd h (by simp)⟩
      | some slaves' =>
        refine ⟨fun s hs => absurd hs (by simp), fun _ hch => ?_⟩
        have hlen := removeFirstSlave_length op.info.id reg.slaves slaves' hrem
        have := congrArg (fun r => r.slaves.length) hch.1
        simp only at this
        omega
    · simp only [MarkSlaveUnreachable.perform, if_pos hmem]
      exact ⟨fun s _ => ⟨rfl, rfl⟩, fun h => absurd h (by simp)⟩
  · -- MarkSlaveReachable
    intro op reg ids
    by_cases hmem : op.info.id ∈ ids
    · simp only [MarkSlaveReachable.perform, if_pos hmem]
      exact ⟨fun s hs => absurd hs (by simp), fun h => absurd h (by simp)⟩
    · simp only [MarkSlaveReachable.perform, if_neg hmem]
      refine ⟨fun s hs => absurd hs (by simp), fun _ hch => ?_⟩
      have := congrArg (fun r => r.slaves.length) hch.1
      simp at this
  · -- PruneUnreachable
    intro op reg ids
    refine ⟨fun s hs => absurd hs (by simp [PruneUnreachable.perform]), ?_⟩
    intro htrue hch
    simp only [PruneUnreachable.perform] at htrue hch
    have h1 : (pruneLoop op.toRemove reg.unreachable 0 false).1 = true := by
      injection htrue
    have hlt := pruneLoop_true_length_lt op.toRemove reg.unreachable 0 false h1 rfl
    have := congrArg (fun r => r.unreachable.length) hch.1
    simp only at this
    omega
  · -- RemoveSlave
    intro op reg ids
    cases hrem : removeFirstSlave op.info.id reg.slaves with
    | none =>
      simp only [RemoveSlave.perform, hrem]
      exact ⟨fun s _ => ⟨rfl, rfl⟩, fun h => absurd h (by simp)⟩
    | some slaves' =>
      simp only [RemoveSlave.perform, hrem]
      refine ⟨fun s hs => absurd hs (by simp), fun _ hch => ?_⟩
      have hlen := removeFirstSlave_length op.info.id reg.slaves slaves' hrem
      have := congrArg (fun r => r.slaves.length) hch.1
      simp only at this
      omega

/-- Witness for C2: admitting an agent into an empty registry succeeds and
mutates it. -/
theorem c2_registry_ops_no_partial_mutation_witness :
    ¬ ((AdmitSlave.perform ⟨⟨5⟩⟩ ⟨[], []⟩ ∅).unchangedFrom ⟨[], []⟩ ∅) :=
  (c2_registry_ops_no_partial_mutation.1 ⟨⟨5⟩⟩ ⟨[], []⟩ ∅).2 rfl

/-- C3 (the code as written): pruning `{2}` from the unreachable list
`[1, 2, 3]` returns `true` but leaves `[1]` — the entry for agent 3,
which is not in `toRemove`, is deleted as well, because the scan calls
`DeleteSubrange(i, i+1)` (delete `i+1` entries at index `i`) where every
sibling operation deletes exactly one entry; the admitted list is left
unchanged.  The claim's description (remove exactly the entries in
`toRemove`) matches the operation's own comment, not this behaviour. -/
theorem c3_prune_removes_unrelated_entry :
    (PruneUnreachable.perform ⟨{2}⟩ pruneExampleRegistry ∅).result =
      Except.ok true ∧
    (PruneUnreachable.perform ⟨{2}⟩ pruneExampleRegistry ∅).registry.unreachable =
      [⟨1, 11⟩] ∧
    (PruneUnreachable.perform ⟨{2}⟩ pruneExampleRegistry ∅).registry.slaves =
      pruneExampleRegistry.slaves ∧
    (⟨3, 13⟩ : UnreachableSlave) ∈ pruneExampleRegistry.unreachable ∧
    (3 : Nat) ∉ ({2} : Finset Nat) := by
  refine ⟨?_, ?_, ?_, ?_, ?_⟩ <;>
    simp [PruneUnreachable.perform, pruneLoop, pruneExampleRegistry,
      deleteSubrange]

/-- C6: `MarkSlaveReachable::perform` moves a not-yet-admitted agent into
the admitted list (removing its first unreachable entry if present, and
succeeding even when the agent is in neither list) and returns `true`;
applying it again on the result returns `false` and leaves the registry
and id set unchanged, so applying it twice equals applying it once. -/
theorem c6_mark_reachable_idempotent :
    ∀ (op : MarkSlaveReachable) (reg : Registry) (ids : Finset Nat),
      (op.info.id ∉ ids →
        (op.perform reg ids).result = .ok true ∧
        (op.perform reg ids).registry.slaves = reg.slaves ++ [⟨op.info⟩] ∧
        (op.perform reg ids).registry.unreachable =
          eraseFirstUnreachable op.info.id reg.unreachable) ∧
      op.info.id ∈ (op.perform reg ids).slaveIDs ∧
      (op.perform (op.perform reg ids).registry
        (op.perform reg ids).slaveIDs).result = .ok false ∧
      (op.perform (op.perform reg ids).registry
        (op.perform reg ids).slaveIDs).registry = (op.perform reg ids).registry ∧
      (op.perform (op.perform reg ids).registry
        (op.perform reg ids).slaveIDs).slaveIDs = (op.perform reg ids).slaveIDs := by
  intro op reg ids
  by_cases hmem : op.info.id ∈ ids
  · have h1 : op.perform reg ids = ⟨.ok false, reg, ids⟩ := by
      simp only [MarkSlaveReachable.perform, if_pos hmem]
    refine ⟨fun hn => absurd hmem hn, ?_, ?_, ?_, ?_⟩ <;>
      simp only [h1] <;> first | exact hmem | rfl
  · have hmem' : op.info.id ∈ insert op.info.id ids :=
      Finset.mem_insert_self _ _
    have h1 : op.perform reg ids =
        ⟨.ok true,
         ⟨reg.slaves ++ [⟨op.info⟩],
          eraseFirstUnreachable op.info.id reg.unreachable⟩,
         insert op.info.id ids⟩ := by
      simp only [MarkSlaveReachable.perform, if_neg hmem]
    have h2 : op.perform
        ⟨reg.slaves ++ [⟨op.info⟩],
         eraseFirstUnreachable op.info.id reg.unreachable⟩
        (insert op.info.id ids) =
        ⟨.ok false,
         ⟨reg.slaves ++ [⟨op.info⟩],
          eraseFirstUnreachable op.info.id reg.unreachable⟩,
         insert op.info.id ids⟩ := by
      simp only [MarkSlaveReachable.perform, if_pos hmem']
    refine ⟨fun _ => ?_, ?_, ?_, ?_, ?_⟩ <;>
      simp only [h1, h2] <;>
      first
        | exact ⟨trivial, trivial, trivial⟩
        | exact hmem'
        | rfl

/-- Witness for C6: marking reachable an agent that is unreachable and not
admitted. -/
theorem c6_mark_reachable_idempotent_witness :
    (MarkSlaveReachable.perform ⟨⟨9⟩⟩ ⟨[], [⟨9, 1⟩]⟩ ∅).result = .ok true ∧
    (MarkSlaveReachable.perform ⟨⟨9⟩⟩ ⟨[], [⟨9, 1⟩]⟩ ∅).registry.slaves =
      ([] : List RegistrySlave) ++ [⟨⟨9⟩⟩] ∧
    (MarkSlaveReachable.perform ⟨⟨9⟩⟩ ⟨[], [⟨9, 1⟩]⟩ ∅).registry.unreachable =
      eraseFirstUnreachable 9 [⟨9, 1⟩] :=
  (c6_mark_reachable_idempotent ⟨⟨9⟩⟩ ⟨[], [⟨9, 1⟩]⟩ ∅).1 (by decide)

end Mesos

namespace Mesos

theorem Resources.ext' {a b : Resources} (h1 : a.cpus = b.cpus)
    (h2 : a.ports = b.ports) : a = b := by
  cases a; cases b; cases h1; cases h2; rfl

theorem Resources.add_cpus (a b : Resources) :
    (a + b).cpus = a.cpus + b.cpus := rfl

theorem Resources.add_ports (a b : Resources) :
    (a + b).ports = a.ports ∪ b.ports := rfl

theorem Resources.sub_cpus (a b : Resources) :
    (a - b).cpus = a.cpus - b.cpus := rfl

theorem Resources.sub_ports (a b : Resources) :
    (a - b).ports = a.ports \ b.ports := rfl

theorem Resources.zero_cpus : (0 : Resources).cpus = 0 := rfl

theorem Resources.zero_ports : (0 : Resources).ports = ∅ := rfl

theorem Resources.add_eq_zero {a b : Resources} (h : a + b = 0) :
    a = 0 ∧ b = 0 := by
  have hc := congrArg Resources.cpus h
  have hp := congrArg Resources.ports h
  rw [Resources.add_cpus, Resources.zero_cpus] at hc
  rw [Resources.add_ports, Resources.zero_ports] at hp
  obtain ⟨hp1, hp2⟩ := Finset.union_eq_empty.mp hp
  constructor
  · exact Resources.ext' (by rw [Resources.zero_cpus]; omega)
      (by rw [hp1, Resources.zero_ports])
  · exact Resources.ext' (by rw [Resources.zero_cpus]; omega)
      (by rw [hp2, Resources.zero_ports])

theorem Resources.scalarOnly_zero : (0 : Resources).scalarOnly := rfl

theorem Resources.scalarOnly_add {a b : Resources} (ha : a.scalarOnly)
    (hb : b.scalarOnly) : (a + b).scalarOnly := by
  unfold Resources.scalarOnly at *
  rw [Resources.add_ports, ha, hb, Finset.union_empty]

theorem Resources.add_sub_cancel_self {r s : Resources} (hr : r.scalarOnly)
    (hs : s.scalarOnly) : (r + s) - r = s := by
  refine Resources.ext' ?_ ?_
  · rw [Resources.sub_cpus, Resources.add_cpus]
    omega
  · rw [Resources.sub_ports, Resources.add_ports]
    unfold Resources.scalarOnly at hr hs
    rw [hr, hs]
    simp

theorem hashmapUpdate_same (f : Nat → Resources) (k : Nat) (v : Resources) :
    hashmapUpdate f k v k = v := by
  simp [hashmapUpdate]

theorem hashmapUpdate_other (f : Nat → Resources) (k : Nat) (v : Resources)
    (a : Nat) (h : a ≠ k) : hashmapUpdate f k v a = f a := by
  simp [hashmapUpdate, h]

theorem pairsOn_zero (a : Nat) : pairsOn 0 a = 0 := rfl

theorem pairsTotal_zero : pairsTotal 0 = 0 := rfl

theorem pairsOn_cons (x : Nat × Resources) (m : Multiset (Nat × Resources))
    (a : Nat) :
    pairsOn (x ::ₘ m) a =
      if x.1 = a then x.2 + pairsOn m a else pairsOn m a := by
  unfold pairsOn
  rw [Multiset.filter_cons]
  by_cases h : x.1 = a
  · rw [if_pos h, Multiset.map_add, Multiset.sum_add, Multiset.map_singleton,
      Multiset.sum_singleton, if_pos h]
  · rw [if_neg h, Multiset.map_add, Multiset.sum_add, Multiset.map_zero,
      Multiset.sum_zero, zero_add, if_neg h]

theorem pairsOn_add (m₁ m₂ : Multiset (Nat × Resources)) (a : Nat) :
    pairsOn (m₁ + m₂) a = pairsOn m₁ a + pairsOn m₂ a := by
  unfold pairsOn
  rw [Multiset.filter_add, Multiset.map_add, Multiset.sum_add]

theorem pairsTotal_cons (x : Nat × Resources) (m : Multiset (Nat × Resources)) :
    pairsTotal (x ::ₘ m) = x.2 + pairsTotal m := by
  unfold pairsTotal
  rw [Multiset.map_cons, Multiset.sum_cons]

theorem pairsTotal_add (m₁ m₂ : Multiset (Nat × Resources)) :
    pairsTotal (m₁ + m₂) = pairsTotal m₁ + pairsTotal m₂ := by
  unfold pairsTotal
  rw [Multiset.map_add, Multiset.sum_add]

theorem pairsOn_scalarOnly (m : Multiset (Nat × Resources)) (a : Nat) :
    (∀ p ∈ m, (p.2).scalarOnly) → (pairsOn m a).scalarOnly := by
  induction m using Multiset.induction_on with
  | empty => exact fun _ => Resources.scalarOnly_zero
  | cons x m ih =>
    intro h
    rw [pairsOn_cons]
    by_cases hx : x.1 = a
    · rw [if_pos hx]
      exact Resources.scalarOnly_add (h x (Multiset.mem_cons_self x m))
        (ih fun p hp => h p (Multiset.mem_cons_of_mem hp))
    · rw [if_neg hx]
      exact ih fun p hp => h p (Multiset.mem_cons_of_mem hp)

theorem pairsTotal_eq_sum_pairsOn (S : Finset Nat)
    (m : Multiset (Nat × Resources)) :
    (∀ a, a ∉ S → pairsOn m a = 0) →
    pairsTotal m = ∑ a in S, pairsOn m a := by
  induction m using Multiset.induction_on with
  | empty =>
    intro _
    rw [pairsTotal_zero, Finset.sum_congr rfl fun a _ => pairsOn_zero a,
      Finset.sum_const_zero]
  | cons x m ih =>
    intro hcov
    have hsplit : ∑ a in S, pairsOn (x ::ₘ m) a
        = (∑ a in S, if x.1 = a then x.2 else 0) + ∑ a in S, pairsOn m a := by
      rw [← Finset.sum_add_distrib]
      refine Finset.sum_congr rfl fun a _ => ?_
      rw [pairsOn_cons]
      by_cases h : x.1 = a
      · rw [if_pos h, if_pos h]
      · rw [if_neg h, if_neg h, zero_add]
    rw [pairsTotal_cons, hsplit, Finset.sum_ite_eq]
    by_cases hx : x.1 ∈ S
    · rw [if_pos hx]
      have hcov' : ∀ a, a ∉ S → pairsOn m a = 0 := by
        intro a ha
        have h0 := hcov a ha
        have hne : x.1 ≠ a := fun e => ha (e ▸ hx)
        rwa [pairsOn_cons, if_neg hne] at h0
      rw [ih hcov']
    · rw [if_neg hx]
      have h0 := hcov x.1 hx
      rw [pairsOn_cons, if_pos rfl] at h0
      obtain ⟨hx2, hm⟩ := Resources.add_eq_zero h0
      have hcov' : ∀ a, a ∉ S → pairsOn m a = 0 := by
        intro a ha
        by_cases he : x.1 = a
        · rw [← he]
          exact hm
        · have h1 := hcov a ha
          rwa [pairsOn_cons, if_neg he] at h1
      rw [ih hcov', hx2, zero_add]

theorem Framework.usedPairs_scalar {F : Framework} (hS : F.ScalarState) :
    ∀ p ∈ F.usedPairs, (p.2).scalarOnly := by
  intro p hp
  unfold Framework.usedPairs at hp
  rcases Multiset.mem_add.mp hp with h | h
  · obtain ⟨t, ht, rfl⟩ := Multiset.mem_map.mp h
    exact hS.1 t (Multiset.mem_of_mem_filter ht)
  · obtain ⟨e, he, rfl⟩ := Multiset.mem_map.mp h
    exact hS.2.2 e he

theorem Framework.offeredPairs_scalar {F : Framework} (hS : F.ScalarState) :
    ∀ p ∈ F.offeredPairs, (p.2).scalarOnly := by
  intro p hp
  obtain ⟨o, ho, rfl⟩ := Multiset.mem_map.mp hp
  exact hS.2.1 o ho

end Mesos

namespace Mesos

theorem step_addTask {F F' : Framework} {t : Task}
    (h : F.addTask t = some F') (hsc : t.resources.scalarOnly)
    (hS : F.ScalarState) (hA : F.Accounting) :
    F'.Accounting ∧ F'.ScalarState := by
  unfold Framework.addTask at h
  by_cases hdup : ∃ u ∈ F.tasks, u.taskId = t.taskId
  · rw [if_pos hdup] at h
    exact absurd h (by simp)
  · rw [if_neg hdup] at h
    obtain ⟨hA1, hA2, hA3, hA4⟩ := hA
    obtain ⟨hS1, hS2, hS3⟩ := hS
    cases ht : isTerminalState t.state with
    | true =>
      rw [ht] at h
      simp only [if_true] at h
      injection h with h
      have htasks : F'.tasks = t ::ₘ F.tasks := by rw [← h]
      have hoffers : F'.offers = F.offers := by rw [← h]
      have hexec : F'.executors = F.executors := by rw [← h]
      have htot : F'.totalUsedResources = F.totalUsedResources := by rw [← h]
      have hused : F'.usedResources = F.usedResources := by rw [← h]
      have htoto : F'.totalOfferedResources = F.totalOfferedResources := by
        rw [← h]
      have hoff : F'.offeredResources = F.offeredResources := by rw [← h]
      have hup : F'.usedPairs = F.usedPairs := by
        unfold Framework.usedPairs
        rw [htasks, hexec, Multiset.filter_cons,
          if_neg (show ¬(isTerminalState t.state = false) by rw [ht]; simp),
          zero_add]
      have hop : F'.offeredPairs = F.offeredPairs := by
        unfold Framework.offeredPairs
        rw [hoffers]
      refine ⟨⟨?_, ?_, ?_, ?_⟩, ?_, ?_, ?_⟩
      · intro a
        rw [hused, hup]
        exact hA1 a
      · intro a
        rw [hoff, hop]
        exact hA2 a
      · rw [htot, hup]
        exact hA3
      · rw [htoto, hop]
        exact hA4
      · intro u hu
        rw [htasks] at hu
        rcases Multiset.mem_cons.mp hu with rfl | hu'
        · exact hsc
        · exact hS1 u hu'
      · intro o ho
        rw [hoffers] at ho
        exact hS2 o ho
      · intro e he
        rw [hexec] at he
        exact hS3 e he
    | false =>
      rw [ht] at h
      simp only [Bool.false_eq_true, if_false] at h
      injection h with h
      have htasks : F'.tasks = t ::ₘ F.tasks := by rw [← h]
      have hoffers : F'.offers = F.offers := by rw [← h]
      have hexec : F'.executors = F.executors := by rw [← h]
      have htot : F'.totalUsedResources =
          F.totalUsedResources + t.resources := by rw [← h]
      have hused : F'.usedResources = hashmapUpdate F.usedResources t.slaveId
          (F.usedResources t.slaveId + t.resources) := by rw [← h]
      have htoto : F'.totalOfferedResources = F.totalOfferedResources := by
        rw [← h]
      have hoff : F'.offeredResources = F.offeredResources := by rw [← h]
      have hup : F'.usedPairs = (t.slaveId, t.resources) ::ₘ F.usedPairs := by
        unfold Framework.usedPairs
        rw [htasks, hexec, Multiset.filter_cons, if_pos ht, Multiset.map_add,
          Multiset.map_singleton, Multiset.singleton_add, Multiset.cons_add]
      have hop : F'.offeredPairs = F.offeredPairs := by
        unfold Framework.offeredPairs
        rw [hoffers]
      refine ⟨⟨?_, ?_, ?_, ?_⟩, ?_, ?_, ?_⟩
      · intro a
        rw [hused, hup, pairsOn_cons]
        by_cases ha : t.slaveId = a
        · rw [if_pos ha, ← ha, hashmapUpdate_same, hA1]
          exact add_comm _ _
        · rw [if_neg ha, hashmapUpdate_other _ _ _ _ (fun e => ha e.symm),
            hA1]
      · intro a
        rw [hoff, hop]
        exact hA2 a
      · rw [htot, hup, pairsTotal_cons, hA3]
        exact add_comm _ _
      · rw [htoto, hop]
        exact hA4
      · intro u hu
        rw [htasks] at hu
        rcases Multiset.mem_cons.mp hu with rfl | hu'
        · exact hsc
        · exact hS1 u hu'
      · intro o ho
        rw [hoffers] at ho
        exact hS2 o ho
      · intro e he
        rw [hexec] at he
        exact hS3 e he

end Mesos

namespace Mesos

theorem pairsTotal_scalarOnly (m : Multiset (Nat × Resources)) :
    (∀ p ∈ m, (p.2).scalarOnly) → (pairsTotal m).scalarOnly := by
  induction m using Multiset.induction_on with
  | empty => exact fun _ => Resources.scalarOnly_zero
  | cons x m ih =>
    intro h
    rw [pairsTotal_cons]
    exact Resources.scalarOnly_add (h x (Multiset.mem_cons_self x m))
      (ih fun p hp => h p (Multiset.mem_cons_of_mem hp))

theorem step_taskTerminated {F F' : Framework} {t : Task}
    {newState : TaskState} (h : F.taskTerminated t newState = some F')
    (hS : F.ScalarState) (hA : F.Accounting) :
    F'.Accounting ∧ F'.ScalarState := by
  unfold Framework.taskTerminated at h
  by_cases hg : t ∈ F.tasks ∧ isTerminalState t.state = false ∧
      isTerminalState newState = true
  case neg =>
    rw [if_neg hg] at h
    exact absurd h (by simp)
  case pos =>
    obtain ⟨ht, htn, hterm⟩ := hg
    rw [if_pos ⟨ht, htn, hterm⟩] at h
    injection h with h
    obtain ⟨hA1, hA2, hA3, hA4⟩ := hA
    obtain ⟨hS1, hS2, hS3⟩ := hS
    have htasks : F'.tasks =
        { t with state := newState } ::ₘ F.tasks.erase t := by rw [← h]
    have hoffers : F'.offers = F.offers := by rw [← h]
    have hexec : F'.executors = F.executors := by rw [← h]
    have htot : F'.totalUsedResources =
        F.totalUsedResources - t.resources := by rw [← h]
    have hused : F'.usedResources = hashmapUpdate F.usedResources t.slaveId
        (F.usedResources t.slaveId - t.resources) := by rw [← h]
    have htoto : F'.totalOfferedResources = F.totalOfferedResources := by
      rw [← h]
    have hoff : F'.offeredResources = F.offeredResources := by rw [← h]
    have hSnew : F'.ScalarState := by
      refine ⟨?_, ?_, ?_⟩
      · intro u hu
        rw [htasks] at hu
        rcases Multiset.mem_cons.mp hu with rfl | hu'
        · exact hS1 t ht
        · exact hS1 u (Multiset.mem_of_mem_erase hu')
      · intro o ho
        rw [hoffers] at ho
        exact hS2 o ho
      · intro e he
        rw [hexec] at he
        exact hS3 e he
    have hop : F'.offeredPairs = F.offeredPairs := by
      unfold Framework.offeredPairs
      rw [hoffers]
    have hsplitF : F.usedPairs = (t.slaveId, t.resources) ::ₘ F'.usedPairs := by
      unfold Framework.usedPairs
      rw [htasks, hexec]
      conv_lhs => rw [(Multiset.cons_erase ht).symm]
      rw [Multiset.filter_cons, if_pos htn, Multiset.map_add,
        Multiset.map_singleton, Multiset.singleton_add, Multiset.cons_add,
        Multiset.filter_cons,
        if_neg (show ¬(isTerminalState
          ({ t with state := newState } : Task).state = false) by
            simp [hterm]),
        zero_add]
    refine ⟨⟨?_, ?_, ?_, ?_⟩, hSnew⟩
    · intro a
      by_cases ha : t.slaveId = a
      · rw [← ha, hused, hashmapUpdate_same, hA1, hsplitF, pairsOn_cons,
          if_pos rfl]
        exact Resources.add_sub_cancel_self (hS1 t ht)
          (pairsOn_scalarOnly _ _ (Framework.usedPairs_scalar hSnew))
      · rw [hused, hashmapUpdate_other _ _ _ _ (fun e => ha e.symm), hA1,
          hsplitF, pairsOn_cons, if_neg ha]
    · intro a
      rw [hoff, hop]
      exact hA2 a
    · rw [htot, hA3, hsplitF, pairsTotal_cons]
      exact Resources.add_sub_cancel_self (hS1 t ht)
        (pairsTotal_scalarOnly _ (Framework.usedPairs_scalar hSnew))
    · rw [htoto, hop]
      exact hA4

end Mesos

namespace Mesos

theorem step_removeTask {F F' : Framework} {t : Task}
    (h : F.removeTask t = some F') (hS : F.ScalarState) (hA : F.Accounting) :
    F'.Accounting ∧ F'.ScalarState := by
  unfold Framework.removeTask at h
  by_cases ht : t ∈ F.tasks
  case neg =>
    rw [if_neg ht] at h
    exact absurd h (by simp)
  case pos =>
    rw [if_pos ht] at h
    obtain ⟨hA1, hA2, hA3, hA4⟩ := hA
    obtain ⟨hS1, hS2, hS3⟩ := hS
    cases ht2 : isTerminalState t.state with
    | true =>
      rw [ht2] at h
      simp only [if_true] at h
      injection h with h
      have htasks : F'.tasks = F.tasks.erase t := by rw [← h]
      have hoffers : F'.offers = F.offers := by rw [← h]
      have hexec : F'.executors = F.executors := by rw [← h]
      have htot : F'.totalUsedResources = F.totalUsedResources := by rw [← h]
      have hused : F'.usedResources = F.usedResources := by rw [← h]
      have htoto : F'.totalOfferedResources = F.totalOfferedResources := by
        rw [← h]
      have hoff : F'.offeredResources = F.offeredResources := by rw [← h]
      have hup : F.usedPairs = F'.usedPairs := by
        unfold Framework.usedPairs
        rw [htasks, hexec]
        conv_lhs => rw [(Multiset.cons_erase ht).symm]
        rw [Multiset.filter_cons,
          if_neg (show ¬(isTerminalState t.state = false) by rw [ht2]; simp),
          zero_add]
      have hop : F'.offeredPairs = F.offeredPairs := by
        unfold Framework.offeredPairs
        rw [hoffers]
      refine ⟨⟨?_, ?_, ?_, ?_⟩, ?_, ?_, ?_⟩
      · intro a
        rw [hused, ← hup]
        exact hA1 a
      · intro a
        rw [hoff, hop]
        exact hA2 a
      · rw [htot, ← hup]
        exact hA3
      · rw [htoto, hop]
        exact hA4
      · intro u hu
        rw [htasks] at hu
        exact hS1 u (Multiset.mem_of_mem_erase hu)
      · intro o ho
        rw [hoffers] at ho
        exact hS2 o ho
      · intro e he
        rw [hexec] at he
        exact hS3 e he
    | false =>
      rw [ht2] at h
      simp only [Bool.false_eq_true, if_false] at h
      injection h with h
      have htasks : F'.tasks = F.tasks.erase t := by rw [← h]
      have hoffers : F'.offers = F.offers := by rw [← h]
      have hexec : F'.executors = F.executors := by rw [← h]
      have htot : F'.totalUsedResources =
          F.totalUsedResources - t.resources := by rw [← h]
      have hused : F'.usedResources = hashmapUpdate F.usedResources t.slaveId
          (F.usedResources t.slaveId - t.resources) := by rw [← h]
      have htoto : F'.totalOfferedResources = F.totalOfferedResources := by
        rw [← h]
      have hoff : F'.offeredResources = F.offeredResources := by rw [← h]
      have hSnew : F'.ScalarState := by
        refine ⟨?_, ?_, ?_⟩
        · intro u hu
          rw [htasks] at hu
          exact hS1 u (Multiset.mem_of_mem_erase hu)
        · intro o ho
          rw [hoffers] at ho
          exact hS2 o ho
        · intro e he
          rw [hexec] at he
          exact hS3 e he
      have hop : F'.offeredPairs = F.offeredPairs := by
        unfold Framework.offeredPairs
        rw [hoffers]
      have hsplitF : F.usedPairs =
          (t.slaveId, t.resources) ::ₘ F'.usedPairs := by
        unfold Framework.usedPairs
        rw [htasks, hexec]
        conv_lhs => rw [(Multiset.cons_erase ht).symm]
        rw [Multiset.filter_cons, if_pos ht2, Multiset.map_add,
          Multiset.map_singleton, Multiset.singleton_add, Multiset.cons_add]
      refine ⟨⟨?_, ?_, ?_, ?_⟩, hSnew⟩
      · intro a
        by_cases ha : t.slaveId = a
        · rw [← ha, hused, hashmapUpdate_same, hA1, hsplitF, pairsOn_cons,
            if_pos rfl]
          exact Resources.add_sub_cancel_self (hS1 t ht)
            (pairsOn_scalarOnly _ _ (Framework.usedPairs_scalar hSnew))
        · rw [hused, hashmapUpdate_other _ _ _ _ (fun e => ha e.symm), hA1,
            hsplitF, pairsOn_cons, if_neg ha]
      · intro a
        rw [hoff, hop]
        exact hA2 a
      · rw [htot, hA3, hsplitF, pairsTotal_cons]
        exact Resources.add_sub_cancel_self (hS1 t ht)
          (pairsTotal_scalarOnly _ (Framework.usedPairs_scalar hSnew))
      · rw [htoto, hop]
        exact hA4

theorem step_addOffer {F F' : Framework} {o : Offer}
    (h : F.addOffer o = some F') (hsc : o.resources.scalarOnly)
    (hS : F.ScalarState) (hA : F.Accounting) :
    F'.Accounting ∧ F'.ScalarState := by
  unfold Framework.addOffer at h
  by_cases hdup : o ∈ F.offers
  · rw [if_pos hdup] at h
    exact absurd h (by simp)
  · rw [if_neg hdup] at h
    injection h with h
    obtain ⟨hA1, hA2, hA3, hA4⟩ := hA
    obtain ⟨hS1, hS2, hS3⟩ := hS
    have htasks : F'.tasks = F.tasks := by rw [← h]
    have hoffers : F'.offers = o ::ₘ F.offers := by rw [← h]
    have hexec : F'.executors = F.executors := by rw [← h]
    have htot : F'.totalUsedResources = F.totalUsedResources := by rw [← h]
    have hused : F'.usedResources = F.usedResources := by rw [← h]
    have htoto : F'.totalOfferedResources =
        F.totalOfferedResources + o.resources := by rw [← h]
    have hoff : F'.offeredResources = hashmapUpdate F.offeredResources
        o.slaveId (F.offeredResources o.slaveId + o.resources) := by rw [← h]
    have hup : F'.usedPairs = F.usedPairs := by
      unfold Framework.usedPairs
      rw [htasks, hexec]
    have hop : F'.offeredPairs =
        (o.slaveId, o.resources) ::ₘ F.offeredPairs := by
      unfold Framework.offeredPairs
      rw [hoffers, Multiset.map_cons]
    refine ⟨⟨?_, ?_, ?_, ?_⟩, ?_, ?_, ?_⟩
    · intro a
      rw [hused, hup]
      exact hA1 a
    · intro a
      rw [hoff, hop, pairsOn_cons]
      by_cases ha : o.slaveId = a
      · rw [if_pos ha, ← ha, hashmapUpdate_same, hA2]
        exact add_comm _ _
      · rw [if_neg ha, hashmapUpdate_other _ _ _ _ (fun e => ha e.symm), hA2]
    · rw [htot, hup]
      exact hA3
    · rw [htoto, hop, pairsTotal_cons, hA4]
      exact add_comm _ _
    · intro u hu
      rw [htasks] at hu
      exact hS1 u hu
    · intro p hp
      rw [hoffers] at hp
      rcases Multiset.mem_cons.mp hp with rfl | hp'
      · exact hsc
      · exact hS2 p hp'
    · intro e he
      rw [hexec] at he
      exact hS3 e he

theorem step_removeOffer {F F' : Framework} {o : Offer}
    (h : F.removeOffer o = some F') (hS : F.ScalarState) (hA : F.Accounting) :
    F'.Accounting ∧ F'.ScalarState := by
  unfold Framework.removeOffer at h
  by_cases ho : o ∈ F.offers
  case neg =>
    rw [if_neg ho] at h
    exact absurd h (by simp)
  case pos =>
    rw [if_pos ho] at h
    injection h with h
    obtain ⟨hA1, hA2, hA3, hA4⟩ := hA
    obtain ⟨hS1, hS2, hS3⟩ := hS
    have htasks : F'.tasks = F.tasks := by rw [← h]
    have hoffers : F'.offers = F.offers.erase o := by rw [← h]
    have hexec : F'.executors = F.executors := by rw [← h]
    have htot : F'.totalUsedResources = F.totalUsedResources := by rw [← h]
    have hused : F'.usedResources = F.usedResources := by rw [← h]
    have htoto : F'.totalOfferedResources =
        F.totalOfferedResources - o.resources := by rw [← h]
    have hoff : F'.offeredResources = hashmapUpdate F.offeredResources
        o.slaveId (F.offeredResources o.slaveId - o.resources) := by rw [← h]
    have hSnew : F'.ScalarState := by
      refine ⟨?_, ?_, ?_⟩
      · intro u hu
        rw [htasks] at hu
        exact hS1 u hu
      · intro p hp
        rw [hoffers] at hp
        exact hS2 p (Multiset.mem_of_mem_erase hp)
      · intro e he
        rw [hexec] at he
        exact hS3 e he
    have hup : F'.usedPairs = F.usedPairs := by
      unfold Framework.usedPairs
      rw [htasks, hexec]
    have hsplitO : F.offeredPairs =
        (o.slaveId, o.resources) ::ₘ F'.offeredPairs := by
      unfold Framework.offeredPairs
      rw [hoffers]
      conv_lhs => rw [(Multiset.cons_erase ho).symm]
      rw [Multiset.map_cons]
    refine ⟨⟨?_, ?_, ?_, ?_⟩, hSnew⟩
    · intro a
      rw [hused, hup]
      exact hA1 a
    · intro a
      by_cases ha : o.slaveId = a
      · rw [← ha, hoff, hashmapUpdate_same, hA2, hsplitO, pairsOn_cons,
          if_pos rfl]
        exact Resources.add_sub_cancel_self (hS2 o ho)
          (pairsOn_scalarOnly _ _ (Framework.offeredPairs_scalar hSnew))
      · rw [hoff, hashmapUpdate_other _ _ _ _ (fun e => ha e.symm), hA2,
          hsplitO, pairsOn_cons, if_neg ha]
    · rw [htot, hup]
      exact hA3
    · rw [htoto, hA4, hsplitO, pairsTotal_cons]
      exact Resources.add_sub_cancel_self (hS2 o ho)
        (pairsTotal_scalarOnly _ (Framework.offeredPairs_scalar hSnew))

theorem step_addExecutor {F F' : Framework} {e : ExecutorInfo}
    (h : F.addExecutor e = some F') (hsc : e.resources.scalarOnly)
    (hS : F.ScalarState) (hA : F.Accounting) :
    F'.Accounting ∧ F'.ScalarState := by
  unfold Framework.addExecutor at h
  by_cases hdup : ∃ x ∈ F.executors,
      x.slaveId = e.slaveId ∧ x.executorId = e.executorId
  · rw [if_pos hdup] at h
    exact absurd h (by simp)
  · rw [if_neg hdup] at h
    injection h with h
    obtain ⟨hA1, hA2, hA3, hA4⟩ := hA
    obtain ⟨hS1, hS2, hS3⟩ := hS
    have htasks : F'.tasks = F.tasks := by rw [← h]
    have hoffers : F'.offers = F.offers := by rw [← h]
    have hexec : F'.executors = e ::ₘ F.executors := by rw [← h]
    have htot : F'.totalUsedResources =
        F.totalUsedResources + e.resources := by rw [← h]
    have hused : F'.usedResources = hashmapUpdate F.usedResources e.slaveId
        (F.usedResources e.slaveId + e.resources) := by rw [← h]
    have htoto : F'.totalOfferedResources = F.totalOfferedResources := by
      rw [← h]
    have hoff : F'.offeredResources = F.offeredResources := by rw [← h]
    have hup : F'.usedPairs = (e.slaveId, e.resources) ::ₘ F.usedPairs := by
      unfold Framework.usedPairs
      rw [htasks, hexec, Multiset.map_cons, Multiset.add_cons]
    have hop : F'.offeredPairs = F.offeredPairs := by
      unfold Framework.offeredPairs
      rw [hoffers]
    refine ⟨⟨?_, ?_, ?_, ?_⟩, ?_, ?_, ?_⟩
    · intro a
      rw [hused, hup, pairsOn_cons]
      by_cases ha : e.slaveId = a
      · rw [if_pos ha, ← ha, hashmapUpdate_same, hA1]
        exact add_comm _ _
      · rw [if_neg ha, hashmapUpdate_other _ _ _ _ (fun x => ha x.symm), hA1]
    · intro a
      rw [hoff, hop]
      exact hA2 a
    · rw [htot, hup, pairsTotal_cons, hA3]
      exact add_comm _ _
    · rw [htoto, hop]
      exact hA4
    · intro u hu
      rw [htasks] at hu
      exact hS1 u hu
    · intro p hp
      rw [hoffers] at hp
      exact hS2 p hp
    · intro x hx
      rw [hexec] at hx
      rcases Multiset.mem_cons.mp hx with rfl | hx'
      · exact hsc
      · exact hS3 x hx'

theorem step_removeExecutor {F F' : Framework} {e : ExecutorInfo}
    (h : F.removeExecutor e = some F') (hS : F.ScalarState)
    (hA : F.Accounting) : F'.Accounting ∧ F'.ScalarState := by
  unfold Framework.removeExecutor at h
  by_cases he : e ∈ F.executors
  case neg =>
    rw [if_neg he] at h
    exact absurd h (by simp)
  case pos =>
    rw [if_pos he] at h
    injection h with h
    obtain ⟨hA1, hA2, hA3, hA4⟩ := hA
    obtain ⟨hS1, hS2, hS3⟩ := hS
    have htasks : F'.tasks = F.tasks := by rw [← h]
    have hoffers : F'.offers = F.offers := by rw [← h]
    have hexec : F'.executors = F.executors.erase e := by rw [← h]
    have htot : F'.totalUsedResources =
        F.totalUsedResources - e.resources := by rw [← h]
    have hused : F'.usedResources = hashmapUpdate F.usedResources e.slaveId
        (F.usedResources e.slaveId - e.resources) := by rw [← h]
    have htoto : F'.totalOfferedResources = F.totalOfferedResources := by
      rw [← h]
    have hoff : F'.offeredResources = F.offeredResources := by rw [← h]
    have hSnew : F'.ScalarState := by
      refine ⟨?_, ?_, ?_⟩
      · intro u hu
        rw [htasks] at hu
        exact hS1 u hu
      · intro p hp
        rw [hoffers] at hp
        exact hS2 p hp
      · intro x hx
        rw [hexec] at hx
        exact hS3 x (Multiset.mem_of_mem_erase hx)
    have hop : F'.offeredPairs = F.offeredPairs := by
      unfold Framework.offeredPairs
      rw [hoffers]
    have hsplitF : F.usedPairs =
        (e.slaveId, e.resources) ::ₘ F'.usedPairs := by
      unfold Framework.usedPairs
      rw [htasks, hexec]
      conv_lhs => rw [(Multiset.cons_erase he).symm]
      rw [Multiset.map_cons, Multiset.add_cons]
    refine ⟨⟨?_, ?_, ?_, ?_⟩, hSnew⟩
    · intro a
      by_cases ha : e.slaveId = a
      · rw [← ha, hused, hashmapUpdate_same, hA1, hsplitF, pairsOn_cons,
          if_pos rfl]
        exact Resources.add_sub_cancel_self (hS3 e he)
          (pairsOn_scalarOnly _ _ (Framework.usedPairs_scalar hSnew))
      · rw [hused, hashmapUpdate_other _ _ _ _ (fun x => ha x.symm), hA1,
          hsplitF, pairsOn_cons, if_neg ha]
    · intro a
      rw [hoff, hop]
      exact hA2 a
    · rw [htot, hA3, hsplitF, pairsTotal_cons]
      exact Resources.add_sub_cancel_self (hS3 e he)
        (pairsTotal_scalarOnly _ (Framework.usedPairs_scalar hSnew))
    · rw [htoto, hop]
      exact hA4

end Mesos

namespace Mesos

theorem accounting_step {F F' : Framework} (op : FrameworkOp)
    (hsc : op.scalarOnly) (h : op.apply F = some F')
    (hS : F.ScalarState) (hA : F.Accounting) :
    F'.Accounting ∧ F'.ScalarState := by
  cases op with
  | addTask t => exact step_addTask h hsc hS hA
  | taskTerminated t s => exact step_taskTerminated h hS hA
  | removeTask t => exact step_removeTask h hS hA
  | addOffer o => exact step_addOffer h hsc hS hA
  | removeOffer o => exact step_removeOffer h hS hA
  | addExecutor e => exact step_addExecutor h hsc hS hA
  | removeExecutor e => exact step_removeExecutor h hS hA

theorem init_accounting (cap : Nat) : (Framework.init cap).Accounting :=
  ⟨fun _ => rfl, fun _ => rfl, rfl, rfl⟩

theorem init_scalarState (cap : Nat) : (Framework.init cap).ScalarState :=
  ⟨fun t ht => absurd ht (Multiset.not_mem_zero t),
   fun o ho => absurd ho (Multiset.not_mem_zero o),
   fun e he => absurd he (Multiset.not_mem_zero e)⟩

theorem scalar_reachable_invariant {F : Framework}
    (h : ReachableScalarFramework F) : F.Accounting ∧ F.ScalarState := by
  induction h with
  | init cap => exact ⟨init_accounting cap, init_scalarState cap⟩
  | step op hre hsc happ ih => exact accounting_step op hsc happ ih.2 ih.1

theorem accounting_totalsMatch {F : Framework} (hA : F.Accounting) :
    F.TotalsMatch := by
  intro S hcov
  obtain ⟨h1, h2, h3, h4⟩ := hA
  constructor
  · have hc : ∀ a, a ∉ S → pairsOn F.usedPairs a = 0 := by
      intro a ha
      rw [← h1 a]
      exact (hcov a ha).1
    rw [h3, pairsTotal_eq_sum_pairsOn S _ hc]
    exact Finset.sum_congr rfl fun a _ => (h1 a).symm
  · have hc : ∀ a, a ∉ S → pairsOn F.offeredPairs a = 0 := by
      intro a ha
      rw [← h2 a]
      exact (hcov a ha).2
    rw [h4, pairsTotal_eq_sum_pairsOn S _ hc]
    exact Finset.sum_congr rfl fun a _ => (h2 a).symm

/-- Counterexample for C1: with the full `Resources` semantics (set/range
resources represented once under addition and removed outright under
subtraction), the totals equality is broken by `taskTerminated`.  Two
running tasks on agents 1 and 2 each hold port 80; terminating the first
leaves `totalUsedResources` empty while the per-agent sum still holds
port 80 — exactly the documented approximation of master.hpp:2563-2571. -/
theorem c1_counterexample_range_resources :
    ReachableFramework cxF3 ∧ ¬ cxF3.TotalsMatch := by
  constructor
  · have h1 : FrameworkOp.apply (FrameworkOp.addTask cxTask1) cxF0 =
        some cxF1 := rfl
    have h2 : FrameworkOp.apply (FrameworkOp.addTask cxTask2) cxF1 =
        some cxF2 := rfl
    have h3 : FrameworkOp.apply
        (FrameworkOp.taskTerminated cxTask1 TaskState.finished) cxF2 =
        some cxF3 := rfl
    exact ReachableFramework.step _
      (ReachableFramework.step _
        (ReachableFramework.step _ (ReachableFramework.init 5) h1) h2) h3
  · intro hTM
    have hu3 : cxF3.usedResources = hashmapUpdate cxF2.usedResources 1
        (cxF2.usedResources 1 - cxTask1.resources) := rfl
    have hu2 : cxF2.usedResources = hashmapUpdate cxF1.usedResources 2
        (cxF1.usedResources 2 + cxTask2.resources) := rfl
    have hu1 : cxF1.usedResources = hashmapUpdate cxF0.usedResources 1
        (cxF0.usedResources 1 + cxTask1.resources) := rfl
    have hcov : ∀ a, a ∉ ({1, 2} : Finset Nat) →
        cxF3.usedResources a = 0 ∧ cxF3.offeredResources a = 0 := by
      intro a ha
      have ha1 : a ≠ 1 := by
        intro x
        exact ha (by rw [x]; exact Finset.mem_insert_self 1 {2})
      have ha2 : a ≠ 2 := by
        intro x
        exact ha (by
          rw [x]
          exact Finset.mem_insert_of_mem (Finset.mem_singleton_self 2))
      constructor
      · rw [hu3, hashmapUpdate_other _ _ _ _ ha1, hu2,
          hashmapUpdate_other _ _ _ _ ha2, hu1,
          hashmapUpdate_other _ _ _ _ ha1]
        rfl
      · rfl
    obtain ⟨h1, -⟩ := hTM {1, 2} hcov
    have hne : ¬ (cxF3.totalUsedResources =
        ∑ a in ({1, 2} : Finset Nat), cxF3.usedResources a) := by decide
    exact hne h1

/-- C1 (amended): for scalar resources (no set/range components), the
equalities `totalUsedResources = Σ usedResources[agent]` and
`totalOfferedResources = Σ offeredResources[agent]` hold after
construction and after any sequence of the seven resource-touching
operations; with set/range resources the totals are only the approximation
documented in the source and the equality can fail after a subtraction. -/
theorem c1_totals_match_of_scalar_reachable :
    ∀ F : Framework, ReachableScalarFramework F → F.TotalsMatch :=
  fun _ h => accounting_totalsMatch (scalar_reachable_invariant h).1

/-- Witness for C1's amended theorem: a freshly constructed framework. -/
theorem c1_totals_match_of_scalar_reachable_witness :
    (Framework.init 3).TotalsMatch :=
  c1_totals_match_of_scalar_reachable (Framework.init 3)
    (ReachableScalarFramework.init 3)

end Mesos

namespace Mesos

/-- C4: `Framework::removeTask` subtracts the task's resources from
`totalUsedResources` and `usedResources[agent]` exactly when the task is
non-terminal (removing an already-terminal task never decrements a second
time), always pushes a copy of the task into the bounded completed-task
ring, and erases it from the live task map (under the map's key
uniqueness, no task with that id remains); `Slave::removeTask` gives the
same decrement-once behaviour on the agent side and also drops the task's
kill-reconciliation record. -/
theorem c4_removeTask_decrement_once_and_archive :
    (∀ (F F' : Framework) (t : Task), F.removeTask t = some F' →
      (F'.totalUsedResources =
        if isTerminalState t.state then F.totalUsedResources
        else F.totalUsedResources - t.resources) ∧
      (F'.usedResources t.slaveId =
        if isTerminalState t.state then F.usedResources t.slaveId
        else F.usedResources t.slaveId - t.resources) ∧
      (∀ a, a ≠ t.slaveId → F'.usedResources a = F.usedResources a) ∧
      F'.completedTasks =
        circularPush F.completedTasksCapacity F.completedTasks t ∧
      F'.tasks = F.tasks.erase t ∧
      ((F.tasks.map Task.taskId).Nodup →
        ∀ u ∈ F'.tasks, u.taskId ≠ t.taskId)) ∧
    (∀ (S S' : Slave) (t : Task), S.removeTask t = some S' →
      (S'.usedResources t.frameworkId =
        if isTerminalState t.state then S.usedResources t.frameworkId
        else S.usedResources t.frameworkId - t.resources) ∧
      (∀ a, a ≠ t.frameworkId → S'.usedResources a = S.usedResources a) ∧
      S'.tasks = S.tasks.erase t ∧
      S'.killedTasks = S.killedTasks.erase (t.frameworkId, t.taskId)) := by
  constructor
  · intro F F' t h
    unfold Framework.removeTask at h
    by_cases ht : t ∈ F.tasks
    case neg =>
      rw [if_neg ht] at h
      exact absurd h (by simp)
    case pos =>
      rw [if_pos ht] at h
      injection h with h
      have htasks : F'.tasks = F.tasks.erase t := by rw [← h]
      refine ⟨by rw [← h], ?_, ?_, by rw [← h], htasks, ?_⟩
      · cases ht2 : isTerminalState t.state with
        | true =>
          rw [← h]
          simp only [ht2, if_true]
        | false =>
          rw [← h]
          simp only [ht2, Bool.false_eq_true, if_false]
          exact hashmapUpdate_same _ _ _
      · intro a ha
        cases ht2 : isTerminalState t.state with
        | true =>
          rw [← h]
          simp only [ht2, if_true]
        | false =>
          rw [← h]
          simp only [ht2, Bool.false_eq_true, if_false]
          exact hashmapUpdate_other _ _ _ _ ha
      · intro hnd u hu hue
        rw [htasks] at hu
        have hkey : F.tasks = t ::ₘ F.tasks.erase t :=
          (Multiset.cons_erase ht).symm
        rw [hkey, Multiset.map_cons] at hnd
        obtain ⟨hnotin, -⟩ := Multiset.nodup_cons.mp hnd
        exact hnotin (hue ▸ Multiset.mem_map_of_mem Task.taskId hu)
  · intro S S' t h
    unfold Slave.removeTask at h
    by_cases ht : t ∈ S.tasks
    case neg =>
      rw [if_neg ht] at h
      exact absurd h (by simp)
    case pos =>
      rw [if_pos ht] at h
      injection h with h
      refine ⟨?_, ?_, by rw [← h], by rw [← h]⟩
      · cases ht2 : isTerminalState t.state with
        | true =>
          rw [← h]
          simp only [ht2, if_true]
        | false =>
          rw [← h]
          simp only [ht2, Bool.false_eq_true, if_false]
          exact hashmapUpdate_same _ _ _
      · intro a ha
        cases ht2 : isTerminalState t.state with
        | true =>
          rw [← h]
          simp only [ht2, if_true]
        | false =>
          rw [← h]
          simp only [ht2, Bool.false_eq_true, if_false]
          exact hashmapUpdate_other _ _ _ _ ha

/-- Witness for C4: removing the concrete running task from the concrete
framework and agent. -/
theorem c4_removeTask_decrement_once_and_archive_witness :
    exampleFrameworkAfter.completedTasks =
      circularPush exampleFramework.completedTasksCapacity
        exampleFramework.completedTasks runningTask ∧
    exampleAgentAfter.killedTasks =
      exampleAgent.killedTasks.erase
        (runningTask.frameworkId, runningTask.taskId) :=
  ⟨(c4_removeTask_decrement_once_and_archive.1 exampleFramework
      exampleFrameworkAfter runningTask rfl).2.2.2.1,
   (c4_removeTask_decrement_once_and_archive.2 exampleAgent
      exampleAgentAfter runningTask rfl).2.2.2⟩

/-- Counterexample for C5: adding a task that is already in a terminal
state (as happens when an agent re-registers with terminal tasks) inserts
it but does not increment the used-resource aggregates, while the claim
requires an unconditional increment by the task's (non-empty) resources. -/
theorem c5_counterexample_terminal_task_not_counted :
    (∀ u ∈ cxF0.tasks, u.taskId ≠ terminalTask.taskId) ∧
    cxF0.addTask terminalTask = some terminalAddFramework ∧
    terminalTask ∈ terminalAddFramework.tasks ∧
    terminalAddFramework.totalUsedResources ≠
      cxF0.totalUsedResources + terminalTask.resources ∧
    terminalAddFramework.usedResources terminalTask.slaveId ≠
      cxF0.usedResources terminalTask.slaveId + terminalTask.resources :=
  ⟨by decide, rfl, by decide, by decide, by decide⟩

/-- C5 (amended): for every task with an id not already present,
`Framework::addTask` inserts the task into the framework's task map and —
exactly when the task is in a non-terminal state — adds its resources to
`totalUsedResources` and `usedResources[agent]`; a task added in a
terminal state is inserted with the aggregates untouched. -/
theorem c5_addTask_inserts_and_counts_nonterminal :
    ∀ (F : Framework) (t : Task),
      (∀ u ∈ F.tasks, u.taskId ≠ t.taskId) →
      (F.addTask t ≠ none) ∧
      (∀ F', F.addTask t = some F' →
        F'.tasks = t ::ₘ F.tasks ∧
        (isTerminalState t.state = false →
          F'.totalUsedResources = F.totalUsedResources + t.resources ∧
          F'.usedResources t.slaveId =
            F.usedResources t.slaveId + t.resources ∧
          ∀ a, a ≠ t.slaveId → F'.usedResources a = F.usedResources a) ∧
        (isTerminalState t.state = true →
          F'.totalUsedResources = F.totalUsedResources ∧
          F'.usedResources = F.usedResources)) := by
  intro F t hfresh
  have hdup : ¬ ∃ u ∈ F.tasks, u.taskId = t.taskId := by
    rintro ⟨u, hu, he⟩
    exact hfresh u hu he
  constructor
  · unfold Framework.addTask
    rw [if_neg hdup]
    simp
  · intro F' h
    unfold Framework.addTask at h
    rw [if_neg hdup] at h
    injection h with h
    refine ⟨by rw [← h], ?_, ?_⟩
    · intro ht
      simp only [← h, ht, Bool.false_eq_true, if_false]
      exact ⟨trivial, hashmapUpdate_same _ _ _,
        fun a ha => hashmapUpdate_other _ _ _ _ ha⟩
    · intro ht
      simp only [← h, ht, if_true]
      exact ⟨trivial, trivial⟩

/-- Witness for C5's amended theorem: adding the concrete running task to a
fresh framework. -/
theorem c5_addTask_inserts_and_counts_nonterminal_witness :
    exampleFramework.tasks = runningTask ::ₘ cxF0.tasks ∧
    exampleFramework.totalUsedResources =
      cxF0.totalUsedResources + runningTask.resources :=
  ⟨((c5_addTask_inserts_and_counts_nonterminal cxF0 runningTask
      (by decide)).2 exampleFramework rfl).1,
   (((c5_addTask_inserts_and_counts_nonterminal cxF0 runningTask
      (by decide)).2 exampleFramework rfl).2.1 rfl).1⟩

end Mesos
